import Mathlib

/-!
Verification of the dpmaster-rs wire codec (dpmaster-proto and dpmaster-codec
crates) against its natural-language specification.

The Rust sources are shallowly embedded: bytes are `Nat` values (each byte is
in 0..255 on the wire), byte slices are `List Nat`, and the nom parser
combinators are modelled as functions from input to `PResult`, where
`PResult.ok rest value` is a successful parse returning the remaining input,
`PResult.err` is a recoverable parse error (the `nom::Err::Error` case; the
error payloads are only decoration and never influence control flow in this
crate), and `PResult.panic` marks a Rust panic (an `unwrap()` of an `Err`).
-/

set_option maxRecDepth 10000

/-- Result of running an embedded parser: success with remaining input,
recoverable parse error, or a Rust panic (from `unwrap()` on an error). -/
inductive PResult (α : Type) where
  | ok (rest : List Nat) (val : α)
  | err
  | panic
deriving DecidableEq, Repr

/-- Sequencing of embedded parsers; errors and panics propagate. -/
def PResult.bind {α β : Type} (r : PResult α) (f : List Nat → α → PResult β) : PResult β :=
  match r with
  | .ok rest v => f rest v
  | .err => .err
  | .panic => .panic

@[simp] theorem PResult.bind_ok {α β : Type} (rest : List Nat) (v : α)
    (f : List Nat → α → PResult β) : (PResult.ok rest v).bind f = f rest v := rfl

@[simp] theorem PResult.bind_err {α β : Type} (f : List Nat → α → PResult β) :
    (PResult.err : PResult α).bind f = .err := rfl

@[simp] theorem PResult.bind_panic {α β : Type} (f : List Nat → α → PResult β) :
    (PResult.panic : PResult α).bind f = .panic := rfl

/-! ## Byte predicates (nom `character` helpers and `messages.rs` helpers) -/

/-- Embeds `is_space` from deserializer.rs: the byte 0x20. -/
def is_space (c : Nat) : Bool := c == 32

/-- Embeds nom `is_digit`: ASCII 0x30..=0x39. -/
def is_digit (c : Nat) : Bool := 48 ≤ c && c ≤ 57

/-- Embeds nom `is_newline`: the byte 0x0A. -/
def is_newline (c : Nat) : Bool := c == 10

/-- Embeds `is_ascii_printable` from messages.rs: code 33 to 126. -/
def is_ascii_printable (c : Nat) : Bool := 33 ≤ c && c ≤ 126

/-- Byte rejected by `Challenge::new`: not ASCII printable, or one of
backslash 0x5C, slash 0x2F, semicolon 0x3B, double quote 0x22, percent 0x25. -/
def challenge_invalid (c : Nat) : Bool :=
  !(is_ascii_printable c) || (c == 92 || c == 47 || c == 59 || c == 34 || c == 37)

/-- Byte rejected by `GameName::new` (the `memchr2(0, 32, ..)` scan):
NUL 0x00 or space 0x20. -/
def gamename_invalid (c : Nat) : Bool := c == 0 || c == 32

/-- First offset at which the predicate holds, scanning left to right starting
at index `k`; embeds the enumerate-scan of `Challenge::new` and the
`memchr2` call of `GameName::new`. -/
def find_invalid_from (p : Nat → Bool) : List Nat → Nat → Option Nat
  | [], _ => none
  | b :: t, k => if p b then some k else find_invalid_from p t (k + 1)

/-! ## Constructor embeddings (messages.rs) -/

/-- Embeds `error::InvalidChallengeError` (its `Empty` and `InvalidByte` cases,
with the `InvalidByteError(offset, bytes)` payload inlined). -/
inductive InvalidChallengeError where
  | empty
  | invalidByte (offset : Nat) (bytes : List Nat)
deriving DecidableEq, Repr

/-- Embeds `error::ProtocolError` (only the variant used by the embedded code). -/
inductive ProtocolError where
  | invalidGameName (byte : Nat) (offset : Nat)
deriving DecidableEq, Repr

/-- Embeds `Challenge::new`: empty input is `Empty`; otherwise the first byte
that is not ASCII printable or is in the disallowed set yields `InvalidByte`
with its offset; otherwise the bytes are returned unchanged. -/
def challenge_new (bs : List Nat) : Except InvalidChallengeError (List Nat) :=
  if bs = [] then .error .empty
  else
    match find_invalid_from challenge_invalid bs 0 with
    | some off => .error (.invalidByte off bs)
    | none => .ok bs

/-- Embeds `GameName::new`: `memchr2(0x00, 0x20, bytes)` finds the first NUL or
space; its index and byte populate `InvalidGameName`, otherwise the bytes are
returned unchanged. -/
def gameName_new (bs : List Nat) : Except ProtocolError (List Nat) :=
  match find_invalid_from gamename_invalid bs 0 with
  | some i => .error (.invalidGameName (bs.getD i 0) i)
  | none => .ok bs

/-- Embeds `InfoKey::new`: no validation, always `Ok` with the bytes unchanged. -/
def infoKey_new (bs : List Nat) : Except ProtocolError (List Nat) := .ok bs

/-- Embeds `InfoValue::new`: no validation, always `Ok` with the bytes unchanged. -/
def infoValue_new (bs : List Nat) : Except ProtocolError (List Nat) := .ok bs

/-- Embeds `GameType::new`: no validation, always `Ok`. -/
def gameType_new (bs : List Nat) : Except ProtocolError (List Nat) := .ok bs

/-- Embeds `ProtocolName::new`: no validation, always `Ok`. -/
def protocolName_new (bs : List Nat) : Except ProtocolError (List Nat) := .ok bs

/-! ## Message model (messages.rs); validated wrappers carry their raw bytes -/

/-- Embeds `HeartbeatMessage`. -/
structure HeartbeatMessage where
  protocol_name : List Nat
deriving DecidableEq, Repr

/-- Embeds `GetInfoMessage`. -/
structure GetInfoMessage where
  challenge : List Nat
deriving DecidableEq, Repr

/-- Embeds `Info` (an insertion-ordered key to value map) together with
`InfoResponseMessage`; entries are kept in insertion order as indexmap does. -/
structure InfoResponseMessage where
  info : List (List Nat × List Nat)
deriving DecidableEq, Repr

/-- Embeds `FilterOptions`. -/
structure FilterOptions where
  gametype : Option (List Nat)
  empty : Bool
  full : Bool
deriving DecidableEq, Repr

/-- Embeds `GetServersMessage`. -/
structure GetServersMessage where
  game_name : Option (List Nat)
  protocol_number : Nat
  filter_options : FilterOptions
deriving DecidableEq, Repr

/-- Embeds `std::net::SocketAddrV4`: four IPv4 octets and a port. -/
structure SocketAddrV4 where
  oct0 : Nat
  oct1 : Nat
  oct2 : Nat
  oct3 : Nat
  port : Nat
deriving DecidableEq, Repr

/-- Embeds `GetServersResponseMessage`. -/
structure GetServersResponseMessage where
  servers : List SocketAddrV4
  eot : Bool
deriving DecidableEq, Repr

/-- Embeds `Info::insert`, that is `indexmap::IndexMap::insert`: an existing
key keeps its position and gets the new value, a new key is appended. -/
def infoInsert : List (List Nat × List Nat) → List Nat → List Nat → List (List Nat × List Nat)
  | [], k, v => [(k, v)]
  | (k0, v0) :: t, k, v => if k0 = k then (k0, v) :: t else (k0, v0) :: infoInsert t k v

/-! ## Byte literals for the wire tokens (ASCII renderings in comments) -/

/-- Wire bytes of the 4-byte datagram magic FF FF FF FF. -/
def magicBytes : List Nat := [255, 255, 255, 255]

/-- Wire bytes of the ASCII command word heartbeat. -/
def heartbeatBytes : List Nat := [104, 101, 97, 114, 116, 98, 101, 97, 116]

/-- Wire bytes of the ASCII command word getinfo. -/
def getinfoBytes : List Nat := [103, 101, 116, 105, 110, 102, 111]

/-- Wire bytes of the ASCII command word infoResponse. -/
def infoResponseBytes : List Nat :=
  [105, 110, 102, 111, 82, 101, 115, 112, 111, 110, 115, 101]

/-- Wire bytes of the ASCII command word getservers. -/
def getserversBytes : List Nat := [103, 101, 116, 115, 101, 114, 118, 101, 114, 115]

/-- Wire bytes of the ASCII command word getserversResponse. -/
def getserversResponseBytes : List Nat :=
  [103, 101, 116, 115, 101, 114, 118, 101, 114, 115, 82, 101, 115, 112, 111, 110, 115, 101]

/-- Wire bytes of the ASCII token gametype= . -/
def gametypeEqBytes : List Nat := [103, 97, 109, 101, 116, 121, 112, 101, 61]

/-- Wire bytes of the ASCII token empty. -/
def emptyBytes : List Nat := [101, 109, 112, 116, 121]

/-- Wire bytes of the ASCII token full. -/
def fullBytes : List Nat := [102, 117, 108, 108]

/-- Wire bytes of the 7-byte end-of-transmission sentinel: backslash, E, O, T,
then three NUL bytes. -/
def eotSentinel : List Nat := [92, 69, 79, 84, 0, 0, 0]

/-! ## nom combinator embeddings -/

/-- Embeds nom `tag`: succeeds iff the expected bytes are a literal input
head, consuming them. -/
def tag (t i : List Nat) : PResult (List Nat) :=
  if t.isPrefixOf i then .ok (i.drop t.length) t else .err

/-- Embeds nom `take_while`: always succeeds, consuming the longest matching
head run. -/
def takeWhileP (p : Nat → Bool) (i : List Nat) : PResult (List Nat) :=
  .ok (i.dropWhile p) (i.takeWhile p)

/-- Embeds nom `take_while1`: like `take_while` but errors on an empty run. -/
def takeWhile1P (p : Nat → Bool) (i : List Nat) : PResult (List Nat) :=
  if i.takeWhile p = [] then .err else .ok (i.dropWhile p) (i.takeWhile p)

/-- Embeds nom `be_u8`: one byte. -/
def be_u8 (i : List Nat) : PResult Nat :=
  match i with
  | [] => .err
  | b :: r => .ok r b

/-- Embeds nom `be_u16`: two bytes, big endian. -/
def be_u16 (i : List Nat) : PResult Nat :=
  match i with
  | b1 :: b2 :: r => .ok r (b1 * 256 + b2)
  | _ => .err

/-! ## deserializer.rs -/

/-- Embeds `message_prefix` (the `context`/`append` wrappers only decorate the
error value and are dropped). -/
def message_start (i : List Nat) : PResult (List Nat) := tag magicBytes i

/-- Embeds `protocol_name`: one or more non-newline bytes, then
`ProtocolName::new(..).unwrap()` (which never fails). -/
def protocol_name (i : List Nat) : PResult (List Nat) :=
  (takeWhile1P (fun c => !(is_newline c)) i).bind fun r v =>
    match protocolName_new v with
    | .ok pn => .ok r pn
    | .error _ => .panic

/-- Embeds `heartbeat_payload`: one or more spaces, the protocol name, then
any run of newlines. -/
def heartbeat_payload (i : List Nat) : PResult HeartbeatMessage :=
  (takeWhile1P is_space i).bind fun r _ =>
  (protocol_name r).bind fun r2 pn =>
  (takeWhileP is_newline r2).bind fun r3 _ =>
  .ok r3 ⟨pn⟩

/-- Embeds `heartbeat`. -/
def heartbeat (i : List Nat) : PResult HeartbeatMessage :=
  (tag heartbeatBytes i).bind fun r _ => heartbeat_payload r

/-- Embeds `heartbeat_message`. -/
def heartbeat_message (i : List Nat) : PResult HeartbeatMessage :=
  (message_start i).bind fun r _ => heartbeat r

/-- Embeds `challenge`: `rest` takes the whole remaining input, then
`Challenge::new(..).unwrap()` panics if the bytes are not a valid challenge. -/
def challenge (i : List Nat) : PResult (List Nat) :=
  match challenge_new i with
  | .ok c => .ok [] c
  | .error _ => .panic

/-- Embeds `getinfo_payload`. -/
def getinfo_payload (i : List Nat) : PResult GetInfoMessage :=
  (takeWhile1P is_space i).bind fun r _ =>
  (challenge r).bind fun r2 c =>
  .ok r2 ⟨c⟩

/-- Embeds `getinfo`. -/
def getinfo (i : List Nat) : PResult GetInfoMessage :=
  (tag getinfoBytes i).bind fun r _ => getinfo_payload r

/-- Embeds `getinfo_message`. -/
def getinfo_message (i : List Nat) : PResult GetInfoMessage :=
  (message_start i).bind fun r _ => getinfo r

/-- Embeds `info_key`: one or more non-backslash bytes, then
`InfoKey::new(..).unwrap()` (which never fails). -/
def info_key (i : List Nat) : PResult (List Nat) :=
  (takeWhile1P (fun c => !(c == 92)) i).bind fun r v =>
    match infoKey_new v with
    | .ok k => .ok r k
    | .error _ => .panic

/-- Embeds `info_value`: one or more non-backslash bytes, then
`InfoValue::new(..).unwrap()` (which never fails). -/
def info_value (i : List Nat) : PResult (List Nat) :=
  (takeWhile1P (fun c => !(c == 92)) i).bind fun r v =>
    match infoValue_new v with
    | .ok k => .ok r k
    | .error _ => .panic

/-- Embeds `info_kv`: backslash, key, backslash, value. -/
def info_kv (i : List Nat) : PResult (List Nat × List Nat) :=
  (tag [92] i).bind fun r _ =>
  (info_key r).bind fun r2 k =>
  (tag [92] r2).bind fun r3 _ =>
  (info_value r3).bind fun r4 v =>
  .ok r4 (k, v)

/-- Loop part of nom `many1(info_kv)`: repeats until a recoverable error,
guarding against zero-length progress as nom does; `fuel` bounds the
iteration count and is always sufficient because `info_kv` consumes input. -/
def info_kvs_more : Nat → List Nat → PResult (List (List Nat × List Nat))
  | 0, _ => .err
  | fuel + 1, i =>
    match info_kv i with
    | .err => .ok i []
    | .panic => .panic
    | .ok i1 kv =>
      if i1.length == i.length then .err
      else (info_kvs_more fuel i1).bind fun r kvs => .ok r (kv :: kvs)

/-- Embeds `many1(info_kv)`: the first pair must parse, then the loop runs. -/
def many1_info_kv (i : List Nat) : PResult (List (List Nat × List Nat)) :=
  match info_kv i with
  | .err => .err
  | .panic => .panic
  | .ok i1 kv => (info_kvs_more (i1.length + 1) i1).bind fun r kvs => .ok r (kv :: kvs)

/-- Embeds `info`: parse the pairs, then insert them in order into a fresh map. -/
def info (i : List Nat) : PResult (List (List Nat × List Nat)) :=
  (many1_info_kv i).bind fun r kvs =>
  .ok r (kvs.foldl (fun m kv => infoInsert m kv.1 kv.2) [])

/-- Embeds `inforesponse_payload`: one LF then the info pairs. -/
def inforesponse_payload (i : List Nat) : PResult InfoResponseMessage :=
  (tag [10] i).bind fun r _ =>
  (info r).bind fun r2 m =>
  .ok r2 ⟨m⟩

/-- Embeds `inforesponse`. -/
def inforesponse (i : List Nat) : PResult InfoResponseMessage :=
  (tag infoResponseBytes i).bind fun r _ => inforesponse_payload r

/-- Embeds `inforesponse_message`. -/
def inforesponse_message (i : List Nat) : PResult InfoResponseMessage :=
  (message_start i).bind fun r _ => inforesponse r

/-- The predicate of the `take_while1` inside `game_name`: neither an ASCII
digit nor a space. -/
def game_name_pred (c : Nat) : Bool := !(is_digit c || is_space c)

/-- Embeds `game_name`: `opt(take_while1(..))`, then
`GameName::new(..).unwrap()` on a present name (panics on a NUL byte). -/
def game_name (i : List Nat) : PResult (Option (List Nat)) :=
  match takeWhile1P game_name_pred i with
  | .err => .ok i none
  | .panic => .panic
  | .ok r v =>
    match gameName_new v with
    | .ok g => .ok r (some g)
    | .error _ => .panic

/-- Embeds `protocol_number`: the longest digit run, `str::from_utf8` (which
cannot fail on ASCII digits), then `u32::from_str_radix(.., 10).unwrap()`:
the unwrap panics on an empty run and on a value that does not fit u32. -/
def protocol_number (i : List Nat) : PResult Nat :=
  match takeWhileP is_digit i with
  | .ok r ds =>
    if ds = [] then .panic
    else
      let v := ds.foldl (fun a d => a * 10 + (d - 48)) 0
      if v < 4294967296 then .ok r v else .panic
  | _ => .err

/-- Embeds the private `FilterOption` enum of deserializer.rs. -/
inductive FilterOption where
  | gametypeOpt (g : List Nat)
  | emptyOpt
  | fullOpt
deriving DecidableEq, Repr

/-- Embeds `filteroption_gametype`: the tag gametype= then one or more
non-space bytes (`GameType::new` never fails). -/
def filteroption_gametype (i : List Nat) : PResult FilterOption :=
  (tag gametypeEqBytes i).bind fun r _ =>
  (takeWhile1P (fun c => !(c == 32)) r).bind fun r2 v =>
    match gameType_new v with
    | .ok g => .ok r2 (.gametypeOpt g)
    | .error _ => .panic

/-- Embeds `filteroption_empty`. -/
def filteroption_empty (i : List Nat) : PResult FilterOption :=
  (tag emptyBytes i).bind fun r _ => .ok r .emptyOpt

/-- Embeds `filteroption_full`. -/
def filteroption_full (i : List Nat) : PResult FilterOption :=
  (tag fullBytes i).bind fun r _ => .ok r .fullOpt

/-- Embeds `filteroption`: `alt` tries gametype, then empty, then full. -/
def filteroption (i : List Nat) : PResult FilterOption :=
  match filteroption_gametype i with
  | .err =>
    match filteroption_empty i with
    | .err => filteroption_full i
    | r => r
  | r => r

/-- Loop part of nom `separated_list0(tag b" "), filteroption)`: after the
first element, repeat separator-then-element, backtracking to before the
separator when either fails, with nom's zero-progress guard. -/
def sepTail : Nat → List Nat → PResult (List FilterOption)
  | 0, _ => .err
  | fuel + 1, i =>
    match tag [32] i with
    | .err => .ok i []
    | .panic => .panic
    | .ok i1 _ =>
      match filteroption i1 with
      | .err => .ok i []
      | .panic => .panic
      | .ok i2 o =>
        if i2.length == i.length then .err
        else (sepTail fuel i2).bind fun r os => .ok r (o :: os)

/-- Embeds `separated_list0(tag(b" "), filteroption)`. -/
def filteroptions_list (i : List Nat) : PResult (List FilterOption) :=
  match filteroption i with
  | .err => .ok i []
  | .panic => .panic
  | .ok i1 o => (sepTail (i1.length + 1) i1).bind fun r os => .ok r (o :: os)

/-- Embeds `filteroptions`: collect the options then fold them onto the
defaults, the last occurrence winning. -/
def filteroptions (i : List Nat) : PResult FilterOptions :=
  (filteroptions_list i).bind fun r opts =>
  .ok r (opts.foldl
    (fun fo o =>
      match o with
      | .gametypeOpt g => { fo with gametype := some g }
      | .emptyOpt => { fo with empty := true }
      | .fullOpt => { fo with full := true })
    ⟨none, false, false⟩)

/-- Embeds `getservers_payload`: spaces, optional game name, spaces, protocol
number, spaces, filter options. -/
def getservers_payload (i : List Nat) : PResult GetServersMessage :=
  (takeWhile1P is_space i).bind fun r _ =>
  (game_name r).bind fun r1 g =>
  (takeWhileP is_space r1).bind fun r2 _ =>
  (protocol_number r2).bind fun r3 n =>
  (takeWhileP is_space r3).bind fun r4 _ =>
  (filteroptions r4).bind fun r5 fo =>
  .ok r5 ⟨g, n, fo⟩

/-- Embeds `getservers`. -/
def getservers (i : List Nat) : PResult GetServersMessage :=
  (tag getserversBytes i).bind fun r _ => getservers_payload r

/-- Embeds `getservers_message`. -/
def getservers_message (i : List Nat) : PResult GetServersMessage :=
  (message_start i).bind fun r _ => getservers r

/-- Embeds `socketaddr4`: four octets then a big-endian port. -/
def socketaddr4 (i : List Nat) : PResult SocketAddrV4 :=
  (be_u8 i).bind fun r1 a =>
  (be_u8 r1).bind fun r2 b =>
  (be_u8 r2).bind fun r3 c =>
  (be_u8 r3).bind fun r4 d =>
  (be_u16 r4).bind fun r5 p =>
  .ok r5 ⟨a, b, c, d, p⟩

/-- Embeds `eot`: the whole remaining input must equal the 7-byte sentinel
(end of transmission) or be empty (more packets may follow); anything else is
a parse error. -/
def eot (i : List Nat) : PResult Bool :=
  if i = eotSentinel then .ok [] true
  else if i = [] then .ok [] false
  else .err

/-- Embeds `many_till(preceded(socketaddr4_separator, socketaddr4), eot)`: at
each step try `eot` first, otherwise a backslash-prefixed address, with nom's
zero-progress guard; `fuel` bounds the iteration count and is always
sufficient because each address consumes seven bytes. -/
def getserversresponse_payloadF : Nat → List Nat → PResult GetServersResponseMessage
  | 0, _ => .err
  | fuel + 1, i =>
    match eot i with
    | .ok r b => .ok r ⟨[], b⟩
    | .panic => .panic
    | .err =>
      match (tag [92] i).bind fun r _ => socketaddr4 r with
      | .err => .err
      | .panic => .panic
      | .ok i1 a =>
        if i1.length == i.length then .err
        else
          match getserversresponse_payloadF fuel i1 with
          | .ok r m => .ok r ⟨a :: m.servers, m.eot⟩
          | .err => .err
          | .panic => .panic

/-- Embeds `getserversresponse_payload` (the fuel is one more than the input
length, enough for the loop). -/
def getserversresponse_payload (i : List Nat) : PResult GetServersResponseMessage :=
  getserversresponse_payloadF (i.length + 1) i

/-- Embeds `getserversresponse`. -/
def getserversresponse (i : List Nat) : PResult GetServersResponseMessage :=
  (tag getserversResponseBytes i).bind fun r _ => getserversresponse_payload r

/-- Embeds `getserversresponse_message`. -/
def getserversresponse_message (i : List Nat) : PResult GetServersResponseMessage :=
  (message_start i).bind fun r _ => getserversresponse r

/-! ## serializer.rs -/

/-- Decimal ASCII bytes of a number, embedding `protocol_number.to_string()`. -/
def natDecBytes (n : Nat) : List Nat :=
  if n = 0 then [48] else (Nat.digits 10 n).reverse.map (fun d => d + 48)

/-- Embeds `gen_heartbeat_message`: magic, heartbeat, one space, the protocol
name, one LF. -/
def gen_heartbeat_message (m : HeartbeatMessage) : List Nat :=
  magicBytes ++ (heartbeatBytes ++ [32]) ++ m.protocol_name ++ [10]

/-- Embeds `gen_getinfo_message`: magic, getinfo, one space, the challenge. -/
def gen_getinfo_message (m : GetInfoMessage) : List Nat :=
  magicBytes ++ (getinfoBytes ++ [32]) ++ m.challenge

/-- Embeds `gen_filter_options`: optional space-gametype=value, then the two
conditional boolean tokens, each preceded by one space. -/
def gen_filter_options (fo : FilterOptions) : List Nat :=
  (match fo.gametype with
   | some t => [32] ++ gametypeEqBytes ++ t
   | none => []) ++
  (if fo.empty then [32] ++ emptyBytes else []) ++
  (if fo.full then [32] ++ fullBytes else [])

/-- Embeds `gen_getservers_message`: magic, getservers, one space, optional
game name followed by one space, the decimal protocol number, the options. -/
def gen_getservers_message (m : GetServersMessage) : List Nat :=
  magicBytes ++ (getserversBytes ++ [32]) ++
  (match m.game_name with
   | some g => g ++ [32]
   | none => []) ++
  natDecBytes m.protocol_number ++ gen_filter_options m.filter_options

/-- Embeds `gen_socketaddrv4`: a backslash, the four octets, the big-endian
port. -/
def gen_socketaddrv4 (s : SocketAddrV4) : List Nat :=
  [92, s.oct0, s.oct1, s.oct2, s.oct3, s.port / 256, s.port % 256]

/-- Embeds `gen_getserversresponse_message`: magic, getserversResponse, the
addresses in stored order, the sentinel iff eot. -/
def gen_getserversresponse_message (m : GetServersResponseMessage) : List Nat :=
  magicBytes ++ getserversResponseBytes ++
  (m.servers.map gen_socketaddrv4).flatten ++
  (if m.eot then eotSentinel else [])

/-- Modelled from the spec: a `gen_inforesponse_message` serializer is
referenced by the crate root tests but absent from the provided sources.
Per the spec wire grammar, it emits the magic, the infoResponse command,
exactly one LF, then every key/value pair in insertion order, each as a
backslash, the key, a backslash, the value. -/
def gen_inforesponse_message (m : InfoResponseMessage) : List Nat :=
  magicBytes ++ infoResponseBytes ++ [10] ++
  (m.info.map (fun kv => [92] ++ kv.1 ++ [92] ++ kv.2)).flatten

/-! ## dpmaster-codec lib.rs -/

/-- The only `std::io::ErrorKind` the codec constructs. -/
inductive IOErrorKind where
  | other
deriving DecidableEq, Repr

/-- Result of `GameClientCodec::decode` paired with the buffer contents after
the call: `ok` carries the optional decoded item and the buffer, `ioError`
carries the error kind and the buffer. -/
inductive DecodeOutcome where
  | ok (item : Option GetServersResponseMessage) (buf : List Nat)
  | ioError (kind : IOErrorKind) (buf : List Nat)
  | panic
deriving DecidableEq, Repr

/-- Embeds `GameClientCodec::decode`: empty buffer gives `None`; otherwise a
successful parse clears the buffer and yields the message, and a parse error
yields an `Other` I/O error while leaving the buffer as it was. -/
def decode (src : List Nat) : DecodeOutcome :=
  if src = [] then .ok none src
  else
    match getserversresponse_message src with
    | .ok _ msg => .ok (some msg) []
    | .err => .ioError .other src
    | .panic => .panic

/-- Serialized form of a list of info pairs: each pair as a backslash, the
key, a backslash, the value (the address-list analogue for infoResponse). -/
def pairsBytes (pairs : List (List Nat × List Nat)) : List Nat :=
  (pairs.map (fun kv => [92] ++ kv.1 ++ [92] ++ kv.2)).flatten

/-! ## Generic stepping lemmas -/

theorem isPrefixOf_append (t r : List Nat) : t.isPrefixOf (t ++ r) = true := by
  induction t with
  | nil => simp [List.isPrefixOf]
  | cons a as ih => simp [List.isPrefixOf, ih]

theorem tag_append (t r : List Nat) : tag t (t ++ r) = .ok r t := by
  simp [tag, isPrefixOf_append, List.drop_left]

theorem takeWhile_append_all (p : Nat → Bool) (l r : List Nat)
    (hl : ∀ b ∈ l, p b = true) (hr : ∀ b, r.head? = some b → p b = false) :
    (l ++ r).takeWhile p = l ∧ (l ++ r).dropWhile p = r := by
  induction l with
  | nil =>
    cases r with
    | nil => simp
    | cons b t => simp [List.takeWhile, List.dropWhile, hr b rfl]
  | cons a as ih =>
    have ha : p a = true := hl a (by simp)
    have := ih (fun b hb => hl b (by simp [hb]))
    simp [List.takeWhile, List.dropWhile, ha, this.1, this.2]

theorem takeWhileP_split (p : Nat → Bool) (l r : List Nat)
    (hl : ∀ b ∈ l, p b = true) (hr : ∀ b, r.head? = some b → p b = false) :
    takeWhileP p (l ++ r) = .ok r l := by
  have := takeWhile_append_all p l r hl hr
  simp [takeWhileP, this.1, this.2]

theorem takeWhile1P_split (p : Nat → Bool) (l r : List Nat) (hne : l ≠ [])
    (hl : ∀ b ∈ l, p b = true) (hr : ∀ b, r.head? = some b → p b = false) :
    takeWhile1P p (l ++ r) = .ok r l := by
  have := takeWhile_append_all p l r hl hr
  simp [takeWhile1P, this.1, this.2, hne]

theorem takeWhile1P_err (p : Nat → Bool) (i : List Nat) (b : Nat)
    (hhead : i.head? = some b) (hb : p b = false) :
    takeWhile1P p i = .err := by
  cases i with
  | nil => simp at hhead
  | cons a t =>
    have : a = b := by simpa using hhead
    subst this
    simp [takeWhile1P, List.takeWhile, hb]

theorem head?_append_left (l r : List Nat) (hne : l ≠ []) :
    (l ++ r).head? = l.head? := by
  cases l with
  | nil => simp at hne
  | cons a t => simp

/-! ## Lemmas about the first-invalid-byte scan -/

theorem find_invalid_from_none (p : Nat → Bool) :
    ∀ (l : List Nat) (k : Nat),
      find_invalid_from p l k = none ↔ ∀ b ∈ l, p b = false := by
  intro l
  induction l with
  | nil => simp [find_invalid_from]
  | cons b t ih =>
    intro k
    by_cases hb : p b = true
    · simp [find_invalid_from, hb]
    · have hb2 : p b = false := by simpa using hb
      simp [find_invalid_from, hb2, ih (k + 1)]

theorem find_invalid_from_some (p : Nat → Bool) :
    ∀ (l : List Nat) (k off : Nat),
      find_invalid_from p l k = some off ↔
        ∃ j, off = k + j ∧ j < l.length ∧ p (l.getD j 0) = true ∧
          ∀ m, m < j → p (l.getD m 0) = false := by
  intro l
  induction l with
  | nil => simp [find_invalid_from]
  | cons b t ih =>
    intro k off
    by_cases hb : p b = true
    · rw [show find_invalid_from p (b :: t) k = some k from by simp [find_invalid_from, hb]]
      constructor
      · intro h
        refine ⟨0, ?_, by simp, by simpa using hb, by omega⟩
        have : k = off := by simpa using h
        omega
      · rintro ⟨j, rfl, hlt, hj, hmin⟩
        rcases j with _ | j
        · simp
        · have h0 := hmin 0 (by omega)
          simp only [List.getD_cons_zero] at h0
          exact absurd hb (by simp [h0])
    · have hb2 : p b = false := by simpa using hb
      rw [show find_invalid_from p (b :: t) k = find_invalid_from p t (k + 1) from by
        simp [find_invalid_from, hb2]]
      rw [ih (k + 1) off]
      constructor
      · rintro ⟨j, rfl, hlt, hj, hmin⟩
        refine ⟨j + 1, by omega, by simpa using hlt, by simpa using hj, ?_⟩
        intro m hm
        rcases m with _ | m
        · simpa using hb2
        · simpa using hmin m (by omega)
      · rintro ⟨j, rfl, hlt, hj, hmin⟩
        rcases j with _ | j
        · exact absurd (by simpa using hj) (by simp [hb2])
        · refine ⟨j, by omega, by simpa using hlt, by simpa using hj, ?_⟩
          intro m hm
          simpa using hmin (m + 1) (by omega)

/-! ## Claim C4: Challenge construction -/

/-- C4: `Challenge::new` returns `Empty` exactly on empty input; on non-empty
input it returns `InvalidByte` carrying the offset of the first byte outside
ASCII printable 33..=126 or in the disallowed set, exactly when such a byte
exists; otherwise it returns the bytes unchanged. -/
theorem c4_challenge_new_spec :
    (∀ bs, challenge_new bs = .error .empty ↔ bs = [])
    ∧ (∀ bs off, challenge_new bs = .error (.invalidByte off bs) ↔
        (off < bs.length ∧ challenge_invalid (bs.getD off 0) = true ∧
          ∀ j, j < off → challenge_invalid (bs.getD j 0) = false))
    ∧ (∀ bs, challenge_new bs = .ok bs ↔
        (bs ≠ [] ∧ ∀ b ∈ bs, challenge_invalid b = false))
    ∧ (∀ bs r, challenge_new bs = .ok r → r = bs) := by
  refine ⟨?_, ?_, ?_, ?_⟩
  · intro bs
    constructor
    · intro h
      by_contra hne
      rw [challenge_new, if_neg hne] at h
      cases hf : find_invalid_from challenge_invalid bs 0 <;> simp [hf] at h
    · rintro rfl
      rfl
  · intro bs off
    constructor
    · intro h
      by_cases hne : bs = []
      · subst hne
        simp [challenge_new] at h
      · rw [challenge_new, if_neg hne] at h
        cases hf : find_invalid_from challenge_invalid bs 0 with
        | none => simp [hf] at h
        | some o =>
          rw [hf] at h
          simp only [Except.error.injEq, InvalidChallengeError.invalidByte.injEq] at h
          obtain ⟨rfl, -⟩ := h
          obtain ⟨j, hj0, hlt, hbad, hmin⟩ := (find_invalid_from_some _ bs 0 o).mp hf
          exact ⟨by omega, by rwa [show o = j by omega], fun m hm => hmin m (by omega)⟩
    · rintro ⟨hlt, hbad, hmin⟩
      have hne : bs ≠ [] := by
        intro h
        subst h
        simp at hlt
      rw [challenge_new, if_neg hne]
      rw [(find_invalid_from_some _ bs 0 off).mpr ⟨off, by omega, hlt, hbad, hmin⟩]
  · intro bs
    constructor
    · intro h
      by_cases hne : bs = []
      · subst hne
        simp [challenge_new] at h
      · rw [challenge_new, if_neg hne] at h
        refine ⟨hne, ?_⟩
        cases hf : find_invalid_from challenge_invalid bs 0 with
        | none => exact (find_invalid_from_none _ bs 0).mp hf
        | some o => simp [hf] at h
    · rintro ⟨hne, hclean⟩
      rw [challenge_new, if_neg hne, (find_invalid_from_none _ bs 0).mpr hclean]
  · intro bs r h
    by_cases hne : bs = []
    · subst hne
      simp [challenge_new] at h
    · rw [challenge_new, if_neg hne] at h
      cases hf : find_invalid_from challenge_invalid bs 0 <;> rw [hf] at h
      · simpa using h.symm
      · simp at h

/-- C4 witness: the theorem instantiated at the one-byte challenge `A` and at
the empty challenge. -/
theorem c4_challenge_new_spec_witness :
    challenge_new [65] = .ok [65] ∧ challenge_new [] = .error .empty :=
  ⟨(c4_challenge_new_spec.2.2.1 [65]).mpr ⟨by simp, by decide⟩,
   (c4_challenge_new_spec.1 []).mpr rfl⟩

/-! ## Claim C5: GameName construction -/

/-- C5: `GameName::new` succeeds with the bytes unchanged exactly when they
contain neither 0x00 nor 0x20; otherwise it reports the first such byte and
its offset; in particular the bytes of the string invalid example fail with
byte 0x20 at offset 7. -/
theorem c5_gameName_new_spec :
    (∀ bs, gameName_new bs = .ok bs ↔ (0 ∉ bs ∧ 32 ∉ bs))
    ∧ (∀ bs byte off, gameName_new bs = .error (.invalidGameName byte off) ↔
        (off < bs.length ∧ bs.getD off 0 = byte ∧ (byte = 0 ∨ byte = 32) ∧
          ∀ j, j < off → bs.getD j 0 ≠ 0 ∧ bs.getD j 0 ≠ 32))
    ∧ gameName_new [105, 110, 118, 97, 108, 105, 100, 32, 101, 120, 97, 109, 112, 108, 101]
        = .error (.invalidGameName 32 7) := by
  refine ⟨?_, ?_, by rfl⟩
  · intro bs
    constructor
    · intro h
      cases hf : find_invalid_from gamename_invalid bs 0 with
      | none =>
        have hclean := (find_invalid_from_none _ bs 0).mp hf
        constructor <;> intro hmem <;>
          simpa [gamename_invalid] using hclean _ hmem
      | some o => simp [gameName_new, hf] at h
    · rintro ⟨h0, h32⟩
      have : find_invalid_from gamename_invalid bs 0 = none := by
        refine (find_invalid_from_none _ bs 0).mpr ?_
        intro b hb
        have hb0 : b ≠ 0 := fun h => h0 (h ▸ hb)
        have hb32 : b ≠ 32 := fun h => h32 (h ▸ hb)
        simp [gamename_invalid, hb0, hb32]
      rw [gameName_new, this]
  · intro bs byte off
    constructor
    · intro h
      cases hf : find_invalid_from gamename_invalid bs 0 with
      | none => simp [gameName_new, hf] at h
      | some o =>
        rw [gameName_new, hf] at h
        simp only [Except.error.injEq, ProtocolError.invalidGameName.injEq] at h
        obtain ⟨hbyte, heq⟩ := h
        subst heq
        obtain ⟨j, hj0, hlt, hbad, hmin⟩ := (find_invalid_from_some _ bs 0 o).mp hf
        have hj : j = o := by omega
        subst hj
        refine ⟨hlt, hbyte, ?_, ?_⟩
        · rw [← hbyte]
          simpa [gamename_invalid] using hbad
        · intro j hj
          have := hmin j hj
          simpa [gamename_invalid] using this
    · rintro ⟨hlt, hbyte, hval, hmin⟩
      have hf : find_invalid_from gamename_invalid bs 0 = some off := by
        refine (find_invalid_from_some _ bs 0 off).mpr ⟨off, by omega, hlt, ?_, ?_⟩
        · rw [hbyte]
          rcases hval with rfl | rfl <;> decide
        · intro m hm
          have := hmin m hm
          simp only [List.getD, List.get?_eq_getElem?] at this
          simp [gamename_invalid, this.1, this.2]
      rw [gameName_new, hf]
      simpa [List.getD] using hbyte

/-- C5 witness: the theorem instantiated at the bytes of Nexuiz and at the
bytes of invalid example. -/
theorem c5_gameName_new_spec_witness :
    gameName_new [78, 101, 120, 117, 105, 122] = .ok [78, 101, 120, 117, 105, 122] :=
  (c5_gameName_new_spec.1 _).mpr ⟨by decide, by decide⟩

/-! ## Small helper lemmas about parser pieces -/

theorem takeWhile1P_ok_val (p : Nat → Bool) (i r : List Nat) (v : List Nat)
    (h : takeWhile1P p i = .ok r v) :
    v ≠ [] ∧ v = i.takeWhile p ∧ r = i.dropWhile p := by
  rw [takeWhile1P] at h
  by_cases he : i.takeWhile p = []
  · simp [he] at h
  · simp only [he, if_neg, if_false] at h
    have h2 := h
    simp only [PResult.ok.injEq] at h2
    exact ⟨h2.2 ▸ he, h2.2.symm, h2.1.symm⟩

theorem gameName_new_ok_eq (bs r : List Nat) (h : gameName_new bs = .ok r) : r = bs := by
  rw [gameName_new] at h
  cases hf : find_invalid_from gamename_invalid bs 0 <;> rw [hf] at h
  · simpa using h.symm
  · simp at h

theorem head?_eq_cons : ∀ (i : List Nat) (b : Nat), i.head? = some b → ∃ t, i = b :: t
  | [], _, h => by simp at h
  | _ :: t, _, h => ⟨t, by simpa using h⟩

theorem game_name_ok_case (i r1 v : List Nat)
    (htw : takeWhile1P game_name_pred i = .ok r1 v) :
    game_name i =
      (match gameName_new v with
       | .ok g => .ok r1 (some g)
       | .error _ => .panic) := by
  rw [game_name, htw]

theorem game_name_none_of_digit (i : List Nat) (b : Nat)
    (hh : i.head? = some b) (hd : is_digit b = true) :
    game_name i = .ok i none := by
  have hp : game_name_pred b = false := by simp [game_name_pred, hd]
  rw [game_name, takeWhile1P_err game_name_pred i b hh hp]

theorem game_name_some_split (g r : List Nat) (hne : g ≠ [])
    (hg : ∀ b ∈ g, game_name_pred b = true)
    (hr : ∀ b, r.head? = some b → game_name_pred b = false)
    (hvalid : ∀ b ∈ g, gamename_invalid b = false) :
    game_name (g ++ r) = .ok r (some g) := by
  rw [game_name_ok_case (g ++ r) r g (takeWhile1P_split game_name_pred g r hne hg hr)]
  rw [show gameName_new g = .ok g from by
    rw [gameName_new, (find_invalid_from_none gamename_invalid g 0).mpr hvalid]]

/-! ## Claim C9: InfoKey and InfoValue construction -/

/-- C9 counterexample: both constructors accept a lone backslash byte, where
the claim requires them to fail. -/
theorem c9_infoKey_backslash_ok :
    infoKey_new [92] = .ok [92] ∧ infoValue_new [92] = .ok [92] :=
  ⟨rfl, rfl⟩

/-- C9 amended: `InfoKey::new` and `InfoValue::new` perform no validation at
all; they accept every byte sequence, including ones containing a backslash,
and return the bytes unchanged. -/
theorem c9_infoKey_infoValue_accept_all (bs : List Nat) :
    infoKey_new bs = .ok bs ∧ infoValue_new bs = .ok bs :=
  ⟨rfl, rfl⟩

/-! ## Claim C10: empty GameName is constructible but never parsed -/

/-- C10: `GameName::new` accepts the empty byte sequence, while the
`game_name` parser never produces an empty name (its `take_while1` requires
at least one byte). -/
theorem c10_empty_gameName :
    gameName_new [] = .ok []
    ∧ ∀ i r g, game_name i = .ok r (some g) → g ≠ [] := by
  refine ⟨rfl, ?_⟩
  intro i r g h
  cases htw : takeWhile1P game_name_pred i with
  | err => rw [game_name, htw] at h; simp at h
  | panic => rw [game_name, htw] at h; simp at h
  | ok r1 v =>
    rw [game_name_ok_case i r1 v htw] at h
    cases hg : gameName_new v with
    | error e => rw [hg] at h; simp at h
    | ok g1 =>
      rw [hg] at h
      simp only [PResult.ok.injEq, Option.some.injEq] at h
      obtain ⟨-, rfl⟩ := h
      have hv := takeWhile1P_ok_val game_name_pred i r1 v htw
      have := gameName_new_ok_eq v g1 hg
      subst this
      exact hv.1

/-- C10 witness: the parser applied to the one-byte input `a` yields the
non-empty name, via the theorem. -/
theorem c10_empty_gameName_witness :
    game_name [97] = .ok [] (some [97]) ∧ ([97] : List Nat) ≠ [] :=
  ⟨by rfl, c10_empty_gameName.2 [97] [] [97] (by rfl)⟩

/-! ## Claim C2: parsers are claimed never to panic, but getinfo panics -/

/-- C2: the `getinfo` parser applied to the bytes of the string `getinfo `
(command, one space, empty remainder) reaches
`Challenge::new(..).unwrap()` on the empty challenge and panics, contradicting
the claim that every public parse function returns a value or a parse error
without panicking. -/
theorem c2_getinfo_empty_challenge_panics :
    getinfo (getinfoBytes ++ [32]) = .panic
    ∧ getinfo_message (magicBytes ++ getinfoBytes ++ [32, 59]) = .panic := by
  constructor <;> rfl

/-! ## Claim C3: protocol-number overflow panics instead of erroring -/

/-- C3: `protocol_number` does take the maximal digit run and convert it in
decimal (the bytes of 84 followed by a space and a letter parse to 84 leaving
both), but on the bytes of 4294967296, which exceeds u32, the
`u32::from_str_radix(..).unwrap()` panics instead of returning a parse error;
the greatest u32 4294967295 still parses. -/
theorem c3_protocol_number_overflow_panics :
    protocol_number [52, 50, 57, 52, 57, 54, 55, 50, 57, 54] = .panic
    ∧ protocol_number [52, 50, 57, 52, 57, 54, 55, 50, 57, 53] = .ok [] 4294967295
    ∧ protocol_number ([56, 52] ++ [32, 101]) = .ok [32, 101] 84 := by
  refine ⟨by rfl, by rfl, by rfl⟩

/-! ## Claim C8: codec decode on a failing buffer -/

/-- C8 counterexample: decoding the non-empty one-byte buffer `x` fails with
an `Other` I/O error but the buffer is left intact, not drained. -/
theorem c8_decode_buffer_not_drained :
    decode [120] = .ioError .other [120] ∧ ([120] : List Nat) ≠ [] :=
  ⟨rfl, by decide⟩

/-- C8 amended: on a non-empty buffer whose contents fail to parse as a
getserversResponse message, decode returns an I/O error of kind `Other` and
leaves the buffer unchanged (only a successful decode drains it). -/
theorem c8_decode_ioError_keeps_buffer (src : List Nat) (hne : src ≠ [])
    (hfail : getserversresponse_message src = .err) :
    decode src = .ioError .other src := by
  rw [decode, if_neg hne, hfail]

/-- C8 witness: the amended theorem applied to the one-byte buffer `h`. -/
theorem c8_decode_ioError_keeps_buffer_witness :
    getserversresponse_message [104] = .err ∧ decode [104] = .ioError .other [104] :=
  ⟨by rfl, c8_decode_ioError_keeps_buffer [104] (by decide) (by rfl)⟩

/-! ## Claim C7: optional game name disambiguation -/

/-- C7 counterexample: on the payload bytes NUL then the digit 0, the name
run is the single NUL byte, and instead of producing it as `Some(game_name)`
the parser panics in `GameName::new(..).unwrap()`. -/
theorem c7_game_name_nul_panics : game_name [0, 48] = .panic := by rfl

/-- C7 amended: with a non-space first byte in view (the payload position
after the mandatory spaces), the parser yields `None` exactly when that byte
is an ASCII digit; otherwise the bytes up to the next digit-or-space boundary
form `Some(game_name)` provided they contain no NUL byte (on a NUL byte the
parser panics instead); the bytes of the string getservers 84 parse to no
game name, protocol 84, no gametype and both booleans false. -/
theorem c7_game_name_disambiguation :
    (∀ i b, i.head? = some b → b ≠ 32 →
      (game_name i = .ok i none ↔ is_digit b = true))
    ∧ (∀ i b, i.head? = some b → is_digit b = false → b ≠ 32 →
        (∀ c ∈ i.takeWhile game_name_pred, c ≠ 0) →
        game_name i = .ok (i.dropWhile game_name_pred) (some (i.takeWhile game_name_pred)))
    ∧ getservers (getserversBytes ++ [32, 56, 52]) =
        .ok [] ⟨none, 84, ⟨none, false, false⟩⟩ := by
  refine ⟨?_, ?_, by rfl⟩
  · intro i b hh hb32
    constructor
    · intro h
      by_contra hd
      have hd2 : is_digit b = false := by simpa using hd
      have hp : game_name_pred b = true := by
        simp [game_name_pred, hd2, is_space, hb32]
      obtain ⟨t, rfl⟩ := head?_eq_cons i b hh
      have htw : takeWhile1P game_name_pred (b :: t)
          = .ok ((b :: t).dropWhile game_name_pred) (b :: t.takeWhile game_name_pred) := by
        rw [takeWhile1P]
        simp [List.takeWhile, hp]
      rw [game_name_ok_case _ _ _ htw] at h
      cases hg : gameName_new (b :: t.takeWhile game_name_pred) with
      | error e => rw [hg] at h; simp at h
      | ok g1 => rw [hg] at h; simp at h
    · intro hd
      exact game_name_none_of_digit i b hh hd
  · intro i b hh hd hb32 hnul
    obtain ⟨t, rfl⟩ := head?_eq_cons i b hh
    have hp : game_name_pred b = true := by
      simp [game_name_pred, hd, is_space, hb32]
    have htake : (b :: t).takeWhile game_name_pred = b :: t.takeWhile game_name_pred := by
      simp [List.takeWhile, hp]
    have htw : takeWhile1P game_name_pred (b :: t)
        = .ok ((b :: t).dropWhile game_name_pred) ((b :: t).takeWhile game_name_pred) := by
      rw [takeWhile1P]
      simp [htake]
    rw [game_name_ok_case _ _ _ htw]
    have hvalid : ∀ c ∈ (b :: t).takeWhile game_name_pred, gamename_invalid c = false := by
      intro c hc
      have hc0 : c ≠ 0 := hnul c hc
      have hcp : game_name_pred c = true := List.mem_takeWhile_imp hc
      have hc32 : c ≠ 32 := by
        intro h
        subst h
        simp [game_name_pred, is_space] at hcp
      simp [gamename_invalid, hc0, hc32]
    rw [show gameName_new ((b :: t).takeWhile game_name_pred)
          = .ok ((b :: t).takeWhile game_name_pred) from by
      rw [gameName_new, (find_invalid_from_none gamename_invalid _ 0).mpr hvalid]]

/-- C7 witness: the first amended conjunct instantiated at the digit byte 8
and the second at the bytes of Nexuiz followed by a space and the digit 3. -/
theorem c7_game_name_disambiguation_witness :
    game_name [56, 52] = .ok [56, 52] none
    ∧ game_name [78, 101, 120, 32, 51] =
        .ok [32, 51] (some [78, 101, 120]) := by
  constructor
  · exact (c7_game_name_disambiguation.1 [56, 52] 56 (by rfl) (by decide)).mpr (by decide)
  · have := c7_game_name_disambiguation.2.1 [78, 101, 120, 32, 51] 78
      (by rfl) (by decide) (by decide) (by decide)
    simpa using this

/-! ## Claim C6: EOT sentinel handling in the getserversResponse payload -/

theorem eot_ok_rest (i r : List Nat) (b : Bool) (h : eot i = .ok r b) : r = [] := by
  rw [eot] at h
  by_cases h1 : i = eotSentinel
  · rw [if_pos h1] at h
    injection h with h3 h4
    exact h3.symm
  · rw [if_neg h1] at h
    by_cases h2 : i = []
    · rw [if_pos h2] at h
      injection h with h3 h4
      exact h3.symm
    · rw [if_neg h2] at h
      simp at h

theorem socketaddr4_short : ∀ (i : List Nat), i.length < 6 → socketaddr4 i = .err := by
  intro i h
  rcases i with _ | ⟨a, _ | ⟨b, _ | ⟨c, _ | ⟨d, _ | ⟨e, _ | ⟨f, t⟩⟩⟩⟩⟩⟩
  · rfl
  · rfl
  · rfl
  · rfl
  · rfl
  · rfl
  · simp at h
    omega

theorem payloadF_ok_rest :
    ∀ (fuel : Nat) (i r : List Nat) (m : GetServersResponseMessage),
      getserversresponse_payloadF fuel i = .ok r m → r = [] := by
  intro fuel
  induction fuel with
  | zero =>
    intro i r m h
    simp [getserversresponse_payloadF] at h
  | succ f ih =>
    intro i r m h
    rw [getserversresponse_payloadF] at h
    cases he : eot i with
    | ok r2 b =>
      simp only [he, PResult.ok.injEq] at h
      exact h.1 ▸ eot_ok_rest i r2 b he
    | panic =>
      simp [he] at h
    | err =>
      simp only [he] at h
      cases ht : (tag [92] i).bind (fun r _ => socketaddr4 r) with
      | err => simp [ht] at h
      | panic => simp [ht] at h
      | ok i1 a =>
        simp only [ht] at h
        split at h
        · simp at h
        · cases hp : getserversresponse_payloadF f i1 with
          | ok r2 m2 =>
            simp only [hp, PResult.ok.injEq] at h
            exact h.1 ▸ ih i1 r2 m2 hp
          | err => simp [hp] at h
          | panic => simp [hp] at h

/-- C6: in the getserversResponse payload, the `eot` parser accepts with
`true` exactly the 7-byte sentinel (consuming everything), accepts with
`false` exactly the empty residue, every successful payload parse consumes
the entire input (so nothing after the sentinel is ever accepted), and a
residue that is neither empty, nor the exact sentinel, nor a
backslash-prefixed run of at least seven bytes (a complete address) is a
parse error. -/
theorem c6_eot_sentinel_semantics :
    (∀ i r b, eot i = .ok r b → r = [])
    ∧ (∀ i, eot i = .ok [] true ↔ i = eotSentinel)
    ∧ (∀ i, eot i = .ok [] false ↔ i = [])
    ∧ (∀ i r m, getserversresponse_payload i = .ok r m → r = [])
    ∧ (∀ i, i ≠ [] → i ≠ eotSentinel → ¬(i.head? = some 92 ∧ 7 ≤ i.length) →
        getserversresponse_payload i = .err) := by
  refine ⟨eot_ok_rest, ?_, ?_, ?_, ?_⟩
  · intro i
    constructor
    · intro h
      by_cases h1 : i = eotSentinel
      · exact h1
      · rw [eot, if_neg h1] at h
        by_cases h2 : i = []
        · rw [if_pos h2] at h
          simp at h
        · rw [if_neg h2] at h
          simp at h
    · rintro rfl
      rfl
  · intro i
    constructor
    · intro h
      by_cases h1 : i = eotSentinel
      · rw [eot, if_pos h1] at h
        simp at h
      · rw [eot, if_neg h1] at h
        by_cases h2 : i = []
        · exact h2
        · rw [if_neg h2] at h
          simp at h
    · rintro rfl
      rfl
  · intro i r m h
    exact payloadF_ok_rest (i.length + 1) i r m h
  · intro i hne hsent hshape
    cases i with
    | nil => exact absurd rfl hne
    | cons b t =>
      show getserversresponse_payloadF (t.length + 1 + 1) (b :: t) = .err
      rw [getserversresponse_payloadF, eot, if_neg hsent, if_neg hne]
      by_cases hb : b = 92
      · subst hb
        have hlen : t.length < 6 := by
          by_contra hge
          exact hshape ⟨rfl, by simp; omega⟩
        have htag : tag [92] (92 :: t) = .ok t [92] := by
          simpa using tag_append [92] t
        rw [htag]
        simp [socketaddr4_short t hlen]
      · have htag : tag [92] (b :: t) = .err := by
          rw [tag]
          simp [List.isPrefixOf, Ne.symm hb]
        rw [htag]
        simp

/-- C6 witness: the sentinel alone parses as end of transmission, and a
backslash followed by only three bytes is a parse error, via the theorem. -/
theorem c6_eot_sentinel_semantics_witness :
    eot eotSentinel = .ok [] true
    ∧ getserversresponse_payload [92, 1, 2, 3] = .err :=
  ⟨(c6_eot_sentinel_semantics.2.1 eotSentinel).mpr rfl,
   c6_eot_sentinel_semantics.2.2.2.2 [92, 1, 2, 3] (by decide) (by decide) (by decide)⟩

/-! ## Claim C1: serialize-then-parse round trip -/

/-- C1 counterexample: the well-formed response with the single server
69.79.84.0 port 0 and eot false serializes to exactly the bytes of the EOT
sentinel after the command, so parsing returns the empty server list with
eot true instead of the original message. -/
theorem c1_roundtrip_counterexample :
    getserversresponse_message
        (gen_getserversresponse_message ⟨[⟨69, 79, 84, 0, 0⟩], false⟩)
      = .ok [] ⟨[], true⟩
    ∧ GetServersResponseMessage.mk [] true ≠ ⟨[⟨69, 79, 84, 0, 0⟩], false⟩ := by
  exact ⟨by rfl, by decide⟩

theorem foldl_mul_add_rev (l : List Nat) :
    ∀ a, l.reverse.foldl (fun acc d => acc * 10 + d) a
      = a * 10 ^ l.length + Nat.ofDigits 10 l := by
  induction l with
  | nil => intro a; simp [Nat.ofDigits]
  | cons d t ih =>
    intro a
    rw [List.reverse_cons, List.foldl_append, ih a]
    simp only [List.foldl_cons, List.foldl_nil, Nat.ofDigits_cons, List.length_cons]
    ring

theorem natDecBytes_foldl (n : Nat) :
    (natDecBytes n).foldl (fun a d => a * 10 + (d - 48)) 0 = n := by
  rw [natDecBytes]
  by_cases h : n = 0
  · subst h
    rfl
  · rw [if_neg h, List.foldl_map]
    rw [show (fun (x y : Nat) => x * 10 + (y + 48 - 48)) = fun acc d => acc * 10 + d from by
      funext acc d
      omega]
    rw [foldl_mul_add_rev (Nat.digits 10 n) 0]
    simp [Nat.ofDigits_digits]

theorem natDecBytes_ne_nil (n : Nat) : natDecBytes n ≠ [] := by
  rw [natDecBytes]
  by_cases h : n = 0
  · simp [h]
  · rw [if_neg h]
    simp [Nat.digits_ne_nil_iff_ne_zero.mpr h]

theorem natDecBytes_is_digit (n : Nat) : ∀ b ∈ natDecBytes n, is_digit b = true := by
  intro b hb
  rw [natDecBytes] at hb
  by_cases h : n = 0
  · rw [if_pos h] at hb
    simp at hb
    simp [hb, is_digit]
  · rw [if_neg h] at hb
    simp only [List.mem_map, List.mem_reverse] at hb
    obtain ⟨d, hd, rfl⟩ := hb
    have := Nat.digits_lt_base (by norm_num) hd
    simp only [is_digit, Bool.and_eq_true, decide_eq_true_eq]
    omega

theorem natDecBytes_head_not (n : Nat) (p : Nat → Bool)
    (hp : ∀ b, is_digit b = true → p b = false) :
    ∀ b, (natDecBytes n ++ r').head? = some b → p b = false := by
  intro b hb
  rw [head?_append_left _ _ (natDecBytes_ne_nil n)] at hb
  have hmem : b ∈ natDecBytes n := by
    cases hd : natDecBytes n with
    | nil => exact absurd hd (natDecBytes_ne_nil n)
    | cons x t =>
      rw [hd] at hb
      simp at hb
      simp [hd, hb]
  exact hp b (natDecBytes_is_digit n b hmem)

theorem protocol_number_split (n : Nat) (r : List Nat) (hn : n < 4294967296)
    (hr : ∀ b, r.head? = some b → is_digit b = false) :
    protocol_number (natDecBytes n ++ r) = .ok r n := by
  have h1 : takeWhileP is_digit (natDecBytes n ++ r) = .ok r (natDecBytes n) :=
    takeWhileP_split _ _ _ (natDecBytes_is_digit n) hr
  rw [protocol_number, h1]
  simp [natDecBytes_ne_nil n, natDecBytes_foldl n, hn]

theorem heartbeat_roundtrip (name : List Nat) (hne : name ≠ [])
    (hnl : ∀ b ∈ name, b ≠ 10) (hhead : name.head? ≠ some 32) :
    heartbeat_message (gen_heartbeat_message ⟨name⟩) = .ok [] ⟨name⟩ := by
  have hshape : gen_heartbeat_message ⟨name⟩
      = magicBytes ++ (heartbeatBytes ++ ([32] ++ (name ++ [10]))) := by
    simp [gen_heartbeat_message, List.append_assoc]
  rw [hshape, heartbeat_message, message_start, tag_append]
  simp only [PResult.bind_ok]
  rw [heartbeat, tag_append]
  simp only [PResult.bind_ok]
  rw [heartbeat_payload]
  rw [takeWhile1P_split is_space [32] (name ++ [10]) (by decide) (by decide)
    (fun b hb => by
      rw [head?_append_left _ _ hne] at hb
      have : b ≠ 32 := fun h => hhead (h ▸ hb)
      simp [is_space, this])]
  simp only [PResult.bind_ok]
  rw [protocol_name]
  rw [takeWhile1P_split (fun c => !(is_newline c)) name [10] hne
    (fun b hb => by simp [is_newline, hnl b hb])
    (fun b hb => by
      have hb10 : b = 10 := by simpa using hb.symm
      subst hb10
      decide)]
  simp [protocolName_new, takeWhileP, is_newline]

theorem challenge_new_ok_eq (bs r : List Nat) (h : challenge_new bs = .ok r) : r = bs := by
  rw [challenge_new] at h
  by_cases hne : bs = []
  · simp [hne] at h
  · rw [if_neg hne] at h
    cases hf : find_invalid_from challenge_invalid bs 0 <;> rw [hf] at h
    · simpa using h.symm
    · simp at h

theorem challenge_valid_facts (c : List Nat) (h : challenge_new c = .ok c) :
    c ≠ [] ∧ ∀ b ∈ c, challenge_invalid b = false := by
  rw [challenge_new] at h
  by_cases hne : c = []
  · simp [hne] at h
  · refine ⟨hne, ?_⟩
    rw [if_neg hne] at h
    cases hf : find_invalid_from challenge_invalid c 0 <;> rw [hf] at h
    · exact (find_invalid_from_none _ c 0).mp hf
    · simp at h

theorem getinfo_roundtrip (c : List Nat) (hc : challenge_new c = .ok c) :
    getinfo_message (gen_getinfo_message ⟨c⟩) = .ok [] ⟨c⟩ := by
  obtain ⟨hne, hclean⟩ := challenge_valid_facts c hc
  have hshape : gen_getinfo_message ⟨c⟩
      = magicBytes ++ (getinfoBytes ++ ([32] ++ c)) := by
    simp [gen_getinfo_message, List.append_assoc]
  rw [hshape, getinfo_message, message_start, tag_append]
  simp only [PResult.bind_ok]
  rw [getinfo, tag_append]
  simp only [PResult.bind_ok]
  rw [getinfo_payload]
  rw [takeWhile1P_split is_space [32] c (by decide) (by decide)
    (fun b hb => by
      have hmem : b ∈ c := by
        cases hd : c with
        | nil => exact absurd hd hne
        | cons x t =>
          rw [hd] at hb
          simp at hb
          simp [hd, hb]
      have := hclean b hmem
      have hb32 : b ≠ 32 := by
        intro h32
        subst h32
        simp [challenge_invalid, is_ascii_printable] at this
      simp [is_space, hb32])]
  simp only [PResult.bind_ok]
  rw [challenge, hc]
  simp

/-! ## infoResponse round trip -/

theorem info_kv_split (k v R : List Nat) (hk : k ≠ []) (hknb : (92 : Nat) ∉ k)
    (hv : v ≠ []) (hvnb : (92 : Nat) ∉ v) (hR : R = [] ∨ R.head? = some 92) :
    info_kv ([92] ++ (k ++ ([92] ++ (v ++ R)))) = .ok R (k, v) := by
  rw [info_kv, tag_append]
  simp only [PResult.bind_ok]
  rw [info_key]
  rw [takeWhile1P_split (fun c => !(c == 92)) k ([92] ++ (v ++ R)) hk
    (fun b hb => by
      have : b ≠ 92 := fun h => hknb (h ▸ hb)
      simp [this])
    (fun b hb => by
      have : b = 92 := by simpa using hb.symm
      simp [this])]
  simp only [PResult.bind_ok, infoKey_new]
  rw [tag_append]
  simp only [PResult.bind_ok]
  rw [info_value]
  rw [takeWhile1P_split (fun c => !(c == 92)) v R hv
    (fun b hb => by
      have : b ≠ 92 := fun h => hvnb (h ▸ hb)
      simp [this])
    (fun b hb => by
      rcases hR with rfl | hR
      · simp at hb
      · rw [hR] at hb
        have : b = 92 := by simpa using hb.symm
        simp [this])]
  simp [infoValue_new]

theorem pairsBytes_nil : pairsBytes [] = [] := rfl

theorem pairsBytes_cons (kv : List Nat × List Nat) (t : List (List Nat × List Nat)) :
    pairsBytes (kv :: t) = [92] ++ (kv.1 ++ ([92] ++ (kv.2 ++ pairsBytes t))) := by
  simp [pairsBytes, List.append_assoc]

theorem pairsBytes_shape (pairs : List (List Nat × List Nat)) :
    pairsBytes pairs = [] ∨ (pairsBytes pairs).head? = some 92 := by
  cases pairs with
  | nil => exact Or.inl rfl
  | cons kv t =>
    right
    rw [pairsBytes_cons]
    rfl

theorem pairsBytes_cons_length (kv : List Nat × List Nat) (t : List (List Nat × List Nat)) :
    (pairsBytes (kv :: t)).length
      = kv.1.length + kv.2.length + 2 + (pairsBytes t).length := by
  rw [pairsBytes_cons]
  simp
  omega

theorem pairsBytes_length (pairs : List (List Nat × List Nat)) :
    2 * pairs.length ≤ (pairsBytes pairs).length := by
  induction pairs with
  | nil => simp [pairsBytes_nil]
  | cons kv t ih =>
    rw [pairsBytes_cons_length]
    simp only [List.length_cons]
    omega

theorem info_kv_err_nil : info_kv [] = .err := rfl

theorem info_kvs_more_gen :
    ∀ (pairs : List (List Nat × List Nat)) (fuel : Nat), pairs.length < fuel →
      (∀ kv ∈ pairs, kv.1 ≠ [] ∧ (92 : Nat) ∉ kv.1 ∧ kv.2 ≠ [] ∧ (92 : Nat) ∉ kv.2) →
      info_kvs_more fuel (pairsBytes pairs) = .ok [] pairs := by
  intro pairs
  induction pairs with
  | nil =>
    intro fuel hfuel hcond
    cases fuel with
    | zero => omega
    | succ f =>
      rw [pairsBytes_nil, info_kvs_more, info_kv_err_nil]
  | cons kv t ih =>
    intro fuel hfuel hcond
    cases fuel with
    | zero => simp at hfuel
    | succ f =>
      obtain ⟨hk, hknb, hv, hvnb⟩ := hcond kv (by simp)
      have hkv : info_kv (pairsBytes (kv :: t)) = .ok (pairsBytes t) (kv.1, kv.2) := by
        rw [pairsBytes_cons]
        exact info_kv_split kv.1 kv.2 (pairsBytes t) hk hknb hv hvnb (pairsBytes_shape t)
      have hlt : (pairsBytes t).length < (pairsBytes (kv :: t)).length := by
        rw [pairsBytes_cons_length]
        omega
      have hguard : ((pairsBytes t).length == (pairsBytes (kv :: t)).length) = false := by
        simp only [beq_eq_false_iff_ne]
        omega
      rw [info_kvs_more]
      simp only [hkv, hguard, Bool.false_eq_true, if_false]
      rw [ih f (by simpa using hfuel) (fun p hp => hcond p (by simp [hp]))]
      simp

theorem infoInsert_append (m : List (List Nat × List Nat)) (k v : List Nat)
    (h : ∀ kv ∈ m, kv.1 ≠ k) : infoInsert m k v = m ++ [(k, v)] := by
  induction m with
  | nil => rfl
  | cons p t ih =>
    obtain ⟨k0, v0⟩ := p
    have hk0 : k0 ≠ k := h (k0, v0) (by simp)
    rw [infoInsert, if_neg hk0]
    rw [ih (fun kv hkv => h kv (by simp [hkv]))]
    simp

theorem foldl_infoInsert (pairs : List (List Nat × List Nat)) :
    ∀ acc, pairs.Pairwise (fun a b => a.1 ≠ b.1) →
      (∀ kv ∈ acc, ∀ kv2 ∈ pairs, kv.1 ≠ kv2.1) →
      pairs.foldl (fun m kv => infoInsert m kv.1 kv.2) acc = acc ++ pairs := by
  induction pairs with
  | nil => intro acc _ _; simp
  | cons p t ih =>
    intro acc hp hdisj
    rw [List.foldl_cons]
    rw [infoInsert_append acc p.1 p.2 (fun kv hkv => hdisj kv hkv p (by simp))]
    rw [ih (acc ++ [p]) (List.pairwise_cons.mp hp).2 ?hdisj]
    · simp
    case hdisj =>
      intro kv hkv kv2 hkv2
      rcases List.mem_append.mp hkv with hin | hone
      · exact hdisj kv hin kv2 (by simp [hkv2])
      · have : kv = p := by simpa using hone
        subst this
        exact (List.pairwise_cons.mp hp).1 kv2 hkv2

theorem inforesponse_roundtrip (pairs : List (List Nat × List Nat))
    (hne : pairs ≠ [])
    (hcond : ∀ kv ∈ pairs, kv.1 ≠ [] ∧ (92 : Nat) ∉ kv.1 ∧ kv.2 ≠ [] ∧ (92 : Nat) ∉ kv.2)
    (hdist : pairs.Pairwise (fun a b => a.1 ≠ b.1)) :
    inforesponse_message (gen_inforesponse_message ⟨pairs⟩) = .ok [] ⟨pairs⟩ := by
  have hshape : gen_inforesponse_message ⟨pairs⟩
      = magicBytes ++ (infoResponseBytes ++ ([10] ++ pairsBytes pairs)) := by
    simp [gen_inforesponse_message, pairsBytes, List.append_assoc]
  rw [hshape, inforesponse_message, message_start, tag_append]
  simp only [PResult.bind_ok]
  rw [inforesponse, tag_append]
  simp only [PResult.bind_ok]
  rw [inforesponse_payload, tag_append]
  simp only [PResult.bind_ok]
  cases pairs with
  | nil => exact absurd rfl hne
  | cons kv t =>
    obtain ⟨hk, hknb, hv, hvnb⟩ := hcond kv (by simp)
    have hkv : info_kv (pairsBytes (kv :: t)) = .ok (pairsBytes t) (kv.1, kv.2) := by
      rw [pairsBytes_cons]
      exact info_kv_split kv.1 kv.2 (pairsBytes t) hk hknb hv hvnb (pairsBytes_shape t)
    have hmore : info_kvs_more ((pairsBytes t).length + 1) (pairsBytes t) = .ok [] t := by
      refine info_kvs_more_gen t ((pairsBytes t).length + 1) ?_ ?_
      · have := pairsBytes_length t
        omega
      · exact fun p hp => hcond p (by simp [hp])
    rw [info, many1_info_kv]
    simp only [hkv]
    rw [hmore]
    simp only [PResult.bind_ok]
    rw [show (kv.1, kv.2) = kv from rfl]
    rw [foldl_infoInsert (kv :: t) [] hdist (by simp)]
    simp

/-! ## getserversResponse round trip -/

theorem gsr_blocks_length (servers : List SocketAddrV4) :
    ((servers.map gen_socketaddrv4).flatten).length = 7 * servers.length := by
  induction servers with
  | nil => rfl
  | cons s t ih =>
    simp only [List.map_cons, List.flatten_cons, List.length_append, ih,
      List.length_cons]
    have : (gen_socketaddrv4 s).length = 7 := rfl
    omega

theorem gsr_payload_step (s : SocketAddrV4) (R : List Nat) (f : Nat)
    (hne_sent : gen_socketaddrv4 s ++ R ≠ eotSentinel) :
    getserversresponse_payloadF (f + 1) (gen_socketaddrv4 s ++ R)
      = (match getserversresponse_payloadF f R with
         | .ok r m => .ok r ⟨s :: m.servers, m.eot⟩
         | .err => .err
         | .panic => .panic) := by
  have hcons : gen_socketaddrv4 s ++ R
      = 92 :: ([s.oct0, s.oct1, s.oct2, s.oct3, s.port / 256, s.port % 256] ++ R) := by
    simp [gen_socketaddrv4]
  have hnenil : gen_socketaddrv4 s ++ R ≠ [] := by
    rw [hcons]
    simp
  rw [getserversresponse_payloadF, eot, if_neg hne_sent, if_neg hnenil]
  have htag : tag [92] (gen_socketaddrv4 s ++ R)
      = .ok ([s.oct0, s.oct1, s.oct2, s.oct3, s.port / 256, s.port % 256] ++ R) [92] := by
    rw [hcons]
    exact tag_append [92] _
  have hport : s.port / 256 * 256 + s.port % 256 = s.port := by omega
  have haddr : ((tag [92] (gen_socketaddrv4 s ++ R)).bind fun r _ => socketaddr4 r)
      = .ok R ⟨s.oct0, s.oct1, s.oct2, s.oct3, s.port⟩ := by
    rw [htag]
    simp [socketaddr4, be_u8, be_u16, hport]
  have hguard : (R.length == (gen_socketaddrv4 s ++ R).length) = false := by
    simp only [beq_eq_false_iff_ne]
    rw [hcons]
    simp
    omega
  simp only [haddr, hguard, Bool.false_eq_true, if_false]

theorem gsr_payload_gen :
    ∀ (servers : List SocketAddrV4) (eotF : Bool) (fuel : Nat),
      servers.length < fuel →
      (eotF = false → servers.getLast? ≠ some ⟨69, 79, 84, 0, 0⟩) →
      getserversresponse_payloadF fuel
          ((servers.map gen_socketaddrv4).flatten ++ (if eotF then eotSentinel else []))
        = .ok [] ⟨servers, eotF⟩ := by
  intro servers
  induction servers with
  | nil =>
    intro eotF fuel hfuel hlast
    cases fuel with
    | zero => simp at hfuel
    | succ f =>
      cases eotF with
      | true =>
        have hin : (([] : List SocketAddrV4).map gen_socketaddrv4).flatten
            ++ (if true then eotSentinel else []) = eotSentinel := by simp
        rw [hin, getserversresponse_payloadF, eot, if_pos rfl]
      | false =>
        have hin : (([] : List SocketAddrV4).map gen_socketaddrv4).flatten
            ++ (if false then eotSentinel else []) = [] := by simp
        rw [hin, getserversresponse_payloadF, eot, if_neg (by decide), if_pos rfl]
  | cons s t ih =>
    intro eotF fuel hfuel hlast
    cases fuel with
    | zero => simp at hfuel
    | succ f =>
      have hshape : ((s :: t).map gen_socketaddrv4).flatten
          ++ (if eotF then eotSentinel else [])
          = gen_socketaddrv4 s
            ++ ((t.map gen_socketaddrv4).flatten ++ (if eotF then eotSentinel else [])) := by
        simp [List.append_assoc]
      rw [hshape]
      have hne_sent : gen_socketaddrv4 s
          ++ ((t.map gen_socketaddrv4).flatten ++ (if eotF then eotSentinel else []))
          ≠ eotSentinel := by
        intro hsent
        have hlen := congrArg List.length hsent
        rw [List.length_append, List.length_append, gsr_blocks_length,
          show (gen_socketaddrv4 s).length = 7 from rfl,
          show eotSentinel.length = 7 from rfl] at hlen
        cases heot : eotF with
        | true =>
          rw [heot] at hlen
          rw [if_pos rfl, show eotSentinel.length = 7 from rfl] at hlen
          omega
        | false =>
          rw [heot] at hlen
          rw [if_neg (by decide)] at hlen
          simp only [List.length_nil] at hlen
          have ht : t = [] := by
            cases t with
            | nil => rfl
            | cons x u => simp at hlen
          subst ht
          rw [heot] at hsent
          rw [if_neg (by decide)] at hsent
          simp only [List.map_nil, List.flatten_nil, List.append_nil] at hsent
          have hcomp : s.oct0 = 69 ∧ s.oct1 = 79 ∧ s.oct2 = 84 ∧ s.oct3 = 0
              ∧ s.port / 256 = 0 ∧ s.port % 256 = 0 := by
            simpa [gen_socketaddrv4, eotSentinel] using hsent
          have hsbad : s = ⟨69, 79, 84, 0, 0⟩ := by
            obtain ⟨h0, h1, h2, h3, h4, h5⟩ := hcomp
            cases s with
            | mk o0 o1 o2 o3 p =>
              simp only at h0 h1 h2 h3 h4 h5
              simp only [h0, h1, h2, h3]
              have : p = 0 := by omega
              simp [this]
          exact (hlast heot) (by simp [hsbad])
      rw [gsr_payload_step s _ f hne_sent]
      have hlast2 : eotF = false → t.getLast? ≠ some ⟨69, 79, 84, 0, 0⟩ := by
        intro he
        cases t with
        | nil => simp
        | cons x u =>
          have := hlast he
          rw [List.getLast?_cons_cons] at this
          exact this
      rw [ih eotF f (by simpa using hfuel) hlast2]

theorem getserversresponse_roundtrip (servers : List SocketAddrV4) (eotF : Bool)
    (hlast : eotF = false → servers.getLast? ≠ some ⟨69, 79, 84, 0, 0⟩) :
    getserversresponse_message (gen_getserversresponse_message ⟨servers, eotF⟩)
      = .ok [] ⟨servers, eotF⟩ := by
  have hshape : gen_getserversresponse_message ⟨servers, eotF⟩
      = magicBytes ++ (getserversResponseBytes
          ++ ((servers.map gen_socketaddrv4).flatten
              ++ (if eotF then eotSentinel else []))) := by
    simp [gen_getserversresponse_message, List.append_assoc]
  rw [hshape, getserversresponse_message, message_start, tag_append]
  simp only [PResult.bind_ok]
  rw [getserversresponse, tag_append]
  simp only [PResult.bind_ok]
  rw [getserversresponse_payload]
  refine gsr_payload_gen servers eotF _ ?_ hlast
  have := gsr_blocks_length servers
  simp only [List.length_append, this]
  omega

/-! ## getservers round trip: filter options -/

theorem filteroption_gametype_split (t r : List Nat) (ht : t ≠ []) (hts : (32 : Nat) ∉ t)
    (hr : r = [] ∨ r.head? = some 32) :
    filteroption (gametypeEqBytes ++ (t ++ r)) = .ok r (.gametypeOpt t) := by
  have hg : filteroption_gametype (gametypeEqBytes ++ (t ++ r)) = .ok r (.gametypeOpt t) := by
    rw [filteroption_gametype, tag_append]
    simp only [PResult.bind_ok]
    rw [takeWhile1P_split (fun c => !(c == 32)) t r ht
      (fun b hb => by
        have : b ≠ 32 := fun h => hts (h ▸ hb)
        simp [this])
      (fun b hb => by
        rcases hr with rfl | hr
        · simp at hb
        · rw [hr] at hb
          have : b = 32 := by simpa using hb.symm
          simp [this])]
    simp [gameType_new]
  rw [filteroption]
  simp [hg]

theorem filteroption_empty_split (r : List Nat) :
    filteroption (emptyBytes ++ r) = .ok r .emptyOpt := by
  have hgt : filteroption_gametype (emptyBytes ++ r) = .err := by
    rw [filteroption_gametype]
    rw [show tag gametypeEqBytes (emptyBytes ++ r) = .err from by
      rw [tag]
      simp [gametypeEqBytes, emptyBytes, List.isPrefixOf]]
    simp
  have hem : filteroption_empty (emptyBytes ++ r) = .ok r .emptyOpt := by
    rw [filteroption_empty, tag_append]
    simp
  rw [filteroption]
  simp [hgt, hem]

theorem filteroption_full_split (r : List Nat) :
    filteroption (fullBytes ++ r) = .ok r .fullOpt := by
  have hgt : filteroption_gametype (fullBytes ++ r) = .err := by
    rw [filteroption_gametype]
    rw [show tag gametypeEqBytes (fullBytes ++ r) = .err from by
      rw [tag]
      simp [gametypeEqBytes, fullBytes, List.isPrefixOf]]
    simp
  have hem : filteroption_empty (fullBytes ++ r) = .err := by
    rw [filteroption_empty]
    rw [show tag emptyBytes (fullBytes ++ r) = .err from by
      rw [tag]
      simp [emptyBytes, fullBytes, List.isPrefixOf]]
    simp
  have hfu : filteroption_full (fullBytes ++ r) = .ok r .fullOpt := by
    rw [filteroption_full, tag_append]
    simp
  rw [filteroption]
  simp [hgt, hem, hfu]

theorem sepTail_nil_input (f : Nat) : sepTail (f + 1) [] = .ok [] [] := by
  rw [sepTail]
  rw [show tag [32] ([] : List Nat) = .err from by rw [tag]; simp [List.isPrefixOf]]

theorem sepTail_step (f : Nat) (body r : List Nat) (o : FilterOption)
    (hfo : filteroption body = .ok r o) (hlen : r.length ≠ body.length + 1) :
    sepTail (f + 1) (32 :: body) = (sepTail f r).bind fun r2 os => .ok r2 (o :: os) := by
  rw [sepTail]
  rw [show tag [32] (32 :: body) = .ok body [32] from tag_append [32] body]
  have hguard : (r.length == (32 :: body).length) = false := by
    simp only [beq_eq_false_iff_ne, List.length_cons]
    exact hlen
  simp only [hfo, hguard, Bool.false_eq_true, if_false]

theorem filteroptions_roundtrip (gt : Option (List Nat)) (e f : Bool)
    (hgt : ∀ t, gt = some t → t ≠ [] ∧ (32 : Nat) ∉ t) :
    filteroptions ((gen_filter_options ⟨gt, e, f⟩).dropWhile is_space)
      = .ok [] ⟨gt, e, f⟩ := by
  rcases gt with _ | t
  · cases e <;> cases f <;> rfl
  · obtain ⟨ht, hts⟩ := hgt t rfl
    have hhead : ∀ (R : List Nat),
        (gametypeEqBytes ++ (t ++ R)).head? = some 103 := fun R => rfl
    have hdrop : ∀ (R : List Nat),
        (32 :: (gametypeEqBytes ++ (t ++ R))).dropWhile is_space
          = gametypeEqBytes ++ (t ++ R) := by
      intro R
      have := (takeWhile_append_all is_space [32] (gametypeEqBytes ++ (t ++ R))
        (by decide)
        (fun b hb => by
          rw [hhead R] at hb
          have : b = 103 := by simpa using hb.symm
          simp [is_space, this])).2
      simpa using this
    cases e <;> cases f
    · -- gametype only
      have hshape : gen_filter_options ⟨some t, false, false⟩
          = 32 :: (gametypeEqBytes ++ (t ++ [])) := by
        simp [gen_filter_options]
      rw [hshape, hdrop []]
      rw [filteroptions, filteroptions_list]
      simp only [filteroption_gametype_split t [] ht hts (Or.inl rfl)]
      rw [show (([] : List Nat).length + 1) = 0 + 1 from rfl, sepTail_nil_input 0]
      simp
    · -- gametype and full
      have hshape : gen_filter_options ⟨some t, false, true⟩
          = 32 :: (gametypeEqBytes ++ (t ++ (32 :: fullBytes))) := by
        simp [gen_filter_options]
      rw [hshape, hdrop (32 :: fullBytes)]
      rw [filteroptions, filteroptions_list]
      simp only [filteroption_gametype_split t (32 :: fullBytes) ht hts (Or.inr rfl)]
      rw [show ((32 :: fullBytes).length + 1) = 5 + 1 from by decide]
      rw [sepTail_step 5 fullBytes [] .fullOpt
        (by simpa using filteroption_full_split []) (by decide)]
      rw [sepTail_nil_input 4]
      simp
    · -- gametype and empty
      have hshape : gen_filter_options ⟨some t, true, false⟩
          = 32 :: (gametypeEqBytes ++ (t ++ (32 :: emptyBytes))) := by
        simp [gen_filter_options]
      rw [hshape, hdrop (32 :: emptyBytes)]
      rw [filteroptions, filteroptions_list]
      simp only [filteroption_gametype_split t (32 :: emptyBytes) ht hts (Or.inr rfl)]
      rw [show ((32 :: emptyBytes).length + 1) = 6 + 1 from by decide]
      rw [sepTail_step 6 emptyBytes [] .emptyOpt
        (by simpa using filteroption_empty_split []) (by decide)]
      rw [sepTail_nil_input 5]
      simp
    · -- gametype, empty and full
      have hshape : gen_filter_options ⟨some t, true, true⟩
          = 32 :: (gametypeEqBytes ++ (t ++ (32 :: (emptyBytes ++ (32 :: fullBytes))))) := by
        simp [gen_filter_options, List.append_assoc]
      rw [hshape, hdrop (32 :: (emptyBytes ++ (32 :: fullBytes)))]
      rw [filteroptions, filteroptions_list]
      simp only [filteroption_gametype_split t (32 :: (emptyBytes ++ (32 :: fullBytes)))
        ht hts (Or.inr rfl)]
      rw [show ((32 :: (emptyBytes ++ (32 :: fullBytes))).length + 1) = 11 + 1 from by decide]
      rw [sepTail_step 11 (emptyBytes ++ (32 :: fullBytes)) (32 :: fullBytes) .emptyOpt
        (filteroption_empty_split (32 :: fullBytes)) (by decide)]
      rw [sepTail_step 10 fullBytes [] .fullOpt
        (by simpa using filteroption_full_split []) (by decide)]
      rw [sepTail_nil_input 9]
      simp

/-! ## getservers round trip: full message -/

theorem gen_filter_options_shape (gt : Option (List Nat)) (e f : Bool) :
    gen_filter_options ⟨gt, e, f⟩ = []
    ∨ (gen_filter_options ⟨gt, e, f⟩).head? = some 32 := by
  rcases gt with _ | t <;> cases e <;> cases f <;> simp [gen_filter_options]

theorem opts_head_not_digit (gt : Option (List Nat)) (e f : Bool) :
    ∀ b, (gen_filter_options ⟨gt, e, f⟩).head? = some b → is_digit b = false := by
  intro b hb
  rcases gen_filter_options_shape gt e f with h | h
  · rw [h] at hb
    simp at hb
  · rw [h] at hb
    have : b = 32 := by simpa using hb.symm
    simp [is_digit, this]

theorem opts_head_not_space_after_drop (gt : Option (List Nat)) (e f : Bool) :
    takeWhileP is_space (gen_filter_options ⟨gt, e, f⟩)
      = .ok ((gen_filter_options ⟨gt, e, f⟩).dropWhile is_space)
            ((gen_filter_options ⟨gt, e, f⟩).takeWhile is_space) := rfl

theorem takeWhileP_none (p : Nat → Bool) (i : List Nat) (b : Nat)
    (hh : i.head? = some b) (hb : p b = false) : takeWhileP p i = .ok i [] := by
  obtain ⟨t, rfl⟩ := head?_eq_cons i b hh
  simp [takeWhileP, List.takeWhile, List.dropWhile, hb]

theorem getservers_roundtrip (g : Option (List Nat)) (n : Nat)
    (gt : Option (List Nat)) (e f : Bool)
    (hn : n < 4294967296)
    (hg : ∀ x, g = some x → x ≠ [] ∧ ∀ b ∈ x, is_digit b = false ∧ b ≠ 32 ∧ b ≠ 0)
    (hgt : ∀ t, gt = some t → t ≠ [] ∧ (32 : Nat) ∉ t) :
    getservers_message (gen_getservers_message ⟨g, n, ⟨gt, e, f⟩⟩)
      = .ok [] ⟨g, n, ⟨gt, e, f⟩⟩ := by
  have hproto : protocol_number (natDecBytes n ++ gen_filter_options ⟨gt, e, f⟩)
      = .ok (gen_filter_options ⟨gt, e, f⟩) n :=
    protocol_number_split n _ hn (opts_head_not_digit gt e f)
  have hfo : filteroptions ((gen_filter_options ⟨gt, e, f⟩).dropWhile is_space)
      = .ok [] ⟨gt, e, f⟩ := filteroptions_roundtrip gt e f hgt
  rcases g with _ | x
  · have hshape : gen_getservers_message ⟨none, n, ⟨gt, e, f⟩⟩
        = magicBytes ++ (getserversBytes
            ++ ([32] ++ (natDecBytes n ++ gen_filter_options ⟨gt, e, f⟩))) := by
      simp [gen_getservers_message, List.append_assoc]
    rw [hshape, getservers_message, message_start, tag_append]
    simp only [PResult.bind_ok]
    rw [getservers, tag_append]
    simp only [PResult.bind_ok]
    rw [getservers_payload]
    rw [takeWhile1P_split is_space [32] (natDecBytes n ++ gen_filter_options ⟨gt, e, f⟩)
      (by decide) (by decide)
      (natDecBytes_head_not n is_space (fun b hb => by
        simp only [is_digit, Bool.and_eq_true, decide_eq_true_eq] at hb
        simp [is_space]
        omega))]
    simp only [PResult.bind_ok]
    obtain ⟨d, hd⟩ : ∃ d, (natDecBytes n ++ gen_filter_options ⟨gt, e, f⟩).head? = some d := by
      cases hdd : natDecBytes n with
      | nil => exact absurd hdd (natDecBytes_ne_nil n)
      | cons y u => exact ⟨y, by simp [hdd]⟩
    have hddig : is_digit d = true := by
      rw [head?_append_left _ _ (natDecBytes_ne_nil n)] at hd
      refine natDecBytes_is_digit n d ?_
      cases hdd : natDecBytes n with
      | nil => exact absurd hdd (natDecBytes_ne_nil n)
      | cons y u =>
        rw [hdd] at hd
        simp at hd
        simp [hdd, hd]
    rw [game_name_none_of_digit _ d hd hddig]
    simp only [PResult.bind_ok]
    rw [takeWhileP_none is_space _ d hd
      (by
        simp only [is_digit, Bool.and_eq_true, decide_eq_true_eq] at hddig
        simp [is_space]
        omega)]
    simp only [PResult.bind_ok]
    rw [hproto]
    simp only [PResult.bind_ok]
    rw [takeWhileP]
    simp only [PResult.bind_ok]
    rw [hfo]
    simp only [PResult.bind_ok]
  · obtain ⟨hxne, hxb⟩ := hg x rfl
    have hshape : gen_getservers_message ⟨some x, n, ⟨gt, e, f⟩⟩
        = magicBytes ++ (getserversBytes
            ++ ([32] ++ (x ++ ([32] ++ (natDecBytes n ++ gen_filter_options ⟨gt, e, f⟩))))) := by
      simp [gen_getservers_message, List.append_assoc]
    rw [hshape, getservers_message, message_start, tag_append]
    simp only [PResult.bind_ok]
    rw [getservers, tag_append]
    simp only [PResult.bind_ok]
    rw [getservers_payload]
    rw [takeWhile1P_split is_space [32]
      (x ++ ([32] ++ (natDecBytes n ++ gen_filter_options ⟨gt, e, f⟩)))
      (by decide) (by decide)
      (fun b hb => by
        rw [head?_append_left _ _ hxne] at hb
        have hmem : b ∈ x := by
          cases hdd : x with
          | nil => exact absurd hdd hxne
          | cons y u =>
            rw [hdd] at hb
            simp at hb
            simp [hdd, hb]
        have := (hxb b hmem).2.1
        simp [is_space, this])]
    simp only [PResult.bind_ok]
    rw [game_name_some_split x ([32] ++ (natDecBytes n ++ gen_filter_options ⟨gt, e, f⟩))
      hxne
      (fun b hb => by
        obtain ⟨h1, h2, h3⟩ := hxb b hb
        simp [game_name_pred, is_space, h1, h2])
      (fun b hb => by
        have : b = 32 := by simpa using hb.symm
        simp [game_name_pred, is_space, this])
      (fun b hb => by
        obtain ⟨h1, h2, h3⟩ := hxb b hb
        simp [gamename_invalid, h2, h3])]
    simp only [PResult.bind_ok]
    rw [takeWhileP_split is_space [32] (natDecBytes n ++ gen_filter_options ⟨gt, e, f⟩)
      (by decide)
      (natDecBytes_head_not n is_space (fun b hb => by
        simp only [is_digit, Bool.and_eq_true, decide_eq_true_eq] at hb
        simp [is_space]
        omega))]
    simp only [PResult.bind_ok]
    rw [hproto]
    simp only [PResult.bind_ok]
    rw [takeWhileP]
    simp only [PResult.bind_ok]
    rw [hfo]
    simp only [PResult.bind_ok]

/-- C1 amended: the serialize-then-parse round trip holds for each message
kind under the well-formedness the wire grammar can represent: heartbeat with
a non-empty protocol name that contains no LF and does not start with a
space; getinfo with a challenge accepted by `Challenge::new`; infoResponse
(serializer modelled from the spec) with a non-empty info map whose keys are
pairwise distinct and whose keys and values are non-empty and
backslash-free; getservers with a protocol number below 2^32, a game name
(when present) that is non-empty with no digit, space or NUL bytes, and a
gametype (when present) that is non-empty and space-free; getserversResponse
whenever eot is true, the server list is empty, or the last server is not
69.79.84.0:0 (whose 7-byte encoding equals the EOT sentinel). -/
theorem c1_roundtrip_amended :
    (∀ name : List Nat, name ≠ [] → (∀ b ∈ name, b ≠ 10) → name.head? ≠ some 32 →
      heartbeat_message (gen_heartbeat_message ⟨name⟩) = .ok [] ⟨name⟩)
    ∧ (∀ c, challenge_new c = .ok c →
        getinfo_message (gen_getinfo_message ⟨c⟩) = .ok [] ⟨c⟩)
    ∧ (∀ pairs : List (List Nat × List Nat), pairs ≠ [] →
        (∀ kv ∈ pairs, kv.1 ≠ [] ∧ (92 : Nat) ∉ kv.1 ∧ kv.2 ≠ [] ∧ (92 : Nat) ∉ kv.2) →
        pairs.Pairwise (fun a b => a.1 ≠ b.1) →
        inforesponse_message (gen_inforesponse_message ⟨pairs⟩) = .ok [] ⟨pairs⟩)
    ∧ (∀ g n gt e f, n < 4294967296 →
        (∀ x, g = some x → x ≠ [] ∧ ∀ b ∈ x, is_digit b = false ∧ b ≠ 32 ∧ b ≠ 0) →
        (∀ t, gt = some t → t ≠ [] ∧ (32 : Nat) ∉ t) →
        getservers_message (gen_getservers_message ⟨g, n, ⟨gt, e, f⟩⟩)
          = .ok [] ⟨g, n, ⟨gt, e, f⟩⟩)
    ∧ (∀ servers eotF, (eotF = false → servers.getLast? ≠ some ⟨69, 79, 84, 0, 0⟩) →
        getserversresponse_message (gen_getserversresponse_message ⟨servers, eotF⟩)
          = .ok [] ⟨servers, eotF⟩) :=
  ⟨heartbeat_roundtrip,
   getinfo_roundtrip,
   inforesponse_roundtrip,
   fun g n gt e f hn hg hgt => getservers_roundtrip g n gt e f hn hg hgt,
   fun servers eotF hlast => getserversresponse_roundtrip servers eotF hlast⟩

/-- C1 witness: the amended round-trip theorem applied to the crate's own
test vectors: heartbeat DarkPlaces, getinfo A_ch4Lleng3, an infoResponse with
the single pair clients to 0, getservers Nexuiz 3, and a getserversResponse
with one server 1.2.3.4:2048 and eot. -/
theorem c1_roundtrip_amended_witness :
    heartbeat_message (gen_heartbeat_message ⟨[68, 97, 114, 107, 80, 108, 97, 99, 101, 115]⟩)
      = .ok [] ⟨[68, 97, 114, 107, 80, 108, 97, 99, 101, 115]⟩
    ∧ getinfo_message
        (gen_getinfo_message ⟨[65, 95, 99, 104, 52, 76, 108, 101, 110, 103, 51]⟩)
      = .ok [] ⟨[65, 95, 99, 104, 52, 76, 108, 101, 110, 103, 51]⟩
    ∧ inforesponse_message
        (gen_inforesponse_message ⟨[([99, 108, 105, 101, 110, 116, 115], [48])]⟩)
      = .ok [] ⟨[([99, 108, 105, 101, 110, 116, 115], [48])]⟩
    ∧ getservers_message
        (gen_getservers_message ⟨some [78, 101, 120, 117, 105, 122], 3, ⟨none, false, false⟩⟩)
      = .ok [] ⟨some [78, 101, 120, 117, 105, 122], 3, ⟨none, false, false⟩⟩
    ∧ getserversresponse_message
        (gen_getserversresponse_message ⟨[⟨1, 2, 3, 4, 2048⟩], true⟩)
      = .ok [] ⟨[⟨1, 2, 3, 4, 2048⟩], true⟩ :=
  ⟨c1_roundtrip_amended.1 _ (by decide) (by decide) (by decide),
   c1_roundtrip_amended.2.1 _ (by rfl),
   c1_roundtrip_amended.2.2.1 _ (by decide) (by decide) (by simp),
   c1_roundtrip_amended.2.2.2.1 _ 3 none false false (by decide)
     (fun x hx => by
       injection hx with hx
       subst hx
       exact ⟨by decide, by decide⟩)
     (fun t ht => by simp at ht),
   c1_roundtrip_amended.2.2.2.2 _ true (fun h => by simp at h)⟩
